import Mathlib

/-
Verification of the liqk gateway ("gate") and the liqk-crypto utility.

The Rust sources are shallowly embedded: strings are lists of characters
(`Str`), byte buffers are lists of naturals, and the effectful handlers are
modelled as pure state-passing functions over explicit inputs (header sets,
cookie jars, multipart fields, upstream-store responses).  Every definition
below is a direct translation of the function of the same name in the
sources, except where a doc comment says that it follows the wording of the
specification or of a claim.
-/

/-- Strings are modelled as lists of characters. -/
abbrev Str := List Char

/-- Lowercasing, as Rust `str::to_lowercase` restricted to ASCII (all the
strings compared in the gateway are ASCII header names and paths). -/
def lower (s : Str) : Str := s.map Char.toLower

/- ===== auth.rs / main.rs : configuration persistence ===== -/

/-- Content written by `save_env_file` (auth.rs lines 71-78 and main.rs lines
93-100): `format!("ACCESS_TOKEN={}\nOXIGRAPH_URL={}\n", token, oxigraph_url)`,
persisted with `fs::write(ENV_FILE, content)`. -/
def env_file_content (token oxigraph_url : Str) : Str :=
  "ACCESS_TOKEN=".data ++ token ++ "\nOXIGRAPH_URL=".data ++ oxigraph_url ++ "\n".data

/- ===== files.rs : extension extraction and file naming ===== -/

/-- Splitting a character list at a separator, as Rust
`str::split(sep).collect::<Vec<_>>()`.  The result is represented as the
first part paired with the remaining parts, so the full parts list is
`r.1 :: r.2` and is never empty (Rust `split` always yields at least one
part). -/
def char_split (sep : Char) : Str → Str × List Str
  | [] => ([], [])
  | c :: cs =>
    let r := char_split sep cs
    if c = sep then ([], r.1 :: r.2) else (c :: r.1, r.2)

/-- Full parts list of a split, as in `filename.split('.').collect()`. -/
def split_parts (sep : Char) (s : Str) : List Str :=
  (char_split sep s).1 :: (char_split sep s).2

/-- Joining parts with a dot, as Rust `parts[1..].join(".")`. -/
def join_dot : Str → List Str → Str
  | p, [] => p
  | p, q :: qs => p ++ '.' :: join_dot q qs

/-- Translation of `extract_extension` (files.rs lines 21-29): split on dots;
with more than one part the extension is `parts[1..].join(".")` (the full
dotted suffix, e.g. "archive.tar.gz" gives "tar.gz"), otherwise `None`. -/
def extract_extension (f : Str) : Option Str :=
  match char_split '.' f with
  | (_, []) => none
  | (_, e :: rest) => some (join_dot e rest)

/-- Definition following the claim's words, for comparison with
`extract_extension`: the extension is the LAST dot-delimited suffix of the
name (so "archive.tar.gz" would give "gz"). -/
def last_dot_suffix (f : Str) : Option Str :=
  match char_split '.' f with
  | (_, []) => none
  | (_, e :: rest) => some ((e :: rest).getLastD [])

/-- Extension actually stored by `upload_handler` (files.rs line 751):
`extract_extension(&safe_filename).unwrap_or_else(|| "bin".to_string())`. -/
def upload_extension (f : Str) : Str :=
  (extract_extension f).getD "bin".data

/-- Physical file name built by `upload_handler` (files.rs line 752):
`format!("{}.{}", file_uuid, extension)`. -/
def stored_file_name (uuid ext : Str) : Str := uuid ++ '.' :: ext

/- ===== proxy.rs : reverse proxy ===== -/

/-- Translation of `should_forward_header` (proxy.rs lines 162-179): the
lowercased name must not be in the fixed deny-list. -/
def should_forward_header (name : Str) : Bool :=
  let n := lower name
  !(n == "host".data || n == "connection".data || n == "keep-alive".data ||
    n == "proxy-authenticate".data || n == "proxy-authorization".data ||
    n == "te".data || n == "trailers".data || n == "transfer-encoding".data ||
    n == "upgrade".data || n == "x-access-token".data ||
    n == "authorization".data || n == "cookie".data)

/-- Outbound request headers built by `proxy_handler` (proxy.rs lines 79-85):
each inbound header is forwarded exactly when `should_forward_header` accepts
its name. -/
def forward_request_headers (hs : List (Str × Str)) : List (Str × Str) :=
  hs.filter fun p => should_forward_header p.1

/-- Relayed response headers built by `proxy_handler` (proxy.rs lines 96-102):
the same `should_forward_header` filter is applied to the upstream response
headers.  (The Rust code inserts into a `HeaderMap`, which additionally
deduplicates by name; which names can appear is unaffected.) -/
def forward_response_headers (hs : List (Str × Str)) : List (Str × Str) :=
  hs.filter fun p => should_forward_header p.1

/-- Deny-list named by the claim: credential headers compared
case-insensitively plus the hop-by-hop connection-management headers. -/
def claim_deny_list : List Str :=
  ["cookie".data, "authorization".data, "x-access-token".data,
   "connection".data, "keep-alive".data, "te".data, "trailers".data,
   "transfer-encoding".data, "upgrade".data,
   "proxy-authenticate".data, "proxy-authorization".data]

/-- Translation of `required_rank_for_path` (proxy.rs lines 15-22):
edit rank 3 when the lowercased path starts with "/update", view rank 1
otherwise. -/
def required_rank_for_path (path : Str) : Int :=
  if List.isPrefixOf "/update".data (lower path) then 3 else 1

/-- HTTP methods handled by `method_to_reqwest` (proxy.rs lines 149-160). -/
inductive HttpMethod
  | get | post | put | delete | head | options | patch
deriving DecidableEq

/-- Required rank as computed in `proxy_handler` (proxy.rs lines 42-46): the
method of the request is not consulted, only the path. -/
def proxy_required_rank (_method : HttpMethod) (path : Str) : Int :=
  required_rank_for_path path

/-- Access decision of `proxy_handler` (proxy.rs line 46): the request is
rejected with 403 exactly when `rank < required_rank`. -/
def proxy_allows (rank : Int) (path : Str) : Bool :=
  !(decide (rank < required_rank_for_path path))

/-- Definition following the claim's words: a mutating HTTP verb. -/
def is_mutating_verb : HttpMethod → Bool
  | .post => true
  | .put => true
  | .delete => true
  | .patch => true
  | _ => false

/-- Definition following the claim's words, for comparison with
`proxy_required_rank`: edit rank exactly for a mutating update-style
operation, view rank for all other requests. -/
def claim_required_rank (m : HttpMethod) (path : Str) : Int :=
  if is_mutating_verb m && List.isPrefixOf "/update".data (lower path) then 3 else 1

/- ===== auth.rs : token authentication ===== -/

/-- Name of the session cookie (auth.rs line 19). -/
def TOKEN_COOKIE_NAME : Str := "oxigraph_gate_token".data

/-- Lookup in a header set.  HTTP header names are case-insensitive
(axum `HeaderMap` normalizes names); the first matching entry's value is
returned, as `HeaderMap::get` does. -/
def header_lookup (n : Str) (hs : List (Str × Str)) : Option Str :=
  (hs.find? fun p => lower p.1 == lower n).map fun p => p.2

/-- Translation of `extract_token_from_header` (auth.rs lines 80-92): the
`X-Access-Token` header if present, otherwise the `Authorization` header
when it carries a "Bearer " prefix (with the prefix removed). -/
def extract_token_from_header (hs : List (Str × Str)) : Option Str :=
  match header_lookup "X-Access-Token".data hs with
  | some t => some t
  | none =>
    match header_lookup "Authorization".data hs with
    | some s => if List.isPrefixOf "Bearer ".data s then some (s.drop 7) else none
    | none => none

/-- Lookup of the session cookie in the cookie jar (cookie names are
case-sensitive). -/
def cookie_lookup (jar : List (Str × Str)) : Option Str :=
  (jar.find? fun p => p.1 == TOKEN_COOKIE_NAME).map fun p => p.2

/-- Translation of `constant_time_compare` (auth.rs lines 118-132): differing
lengths give `false` (after a dummy comparison), otherwise a full comparison;
functionally this is equality of the two strings. -/
def constant_time_compare (a b : Str) : Bool :=
  if a.length != b.length then false else a == b

/-- Translation of `validate_token` (auth.rs lines 100-114): accept when the
header-extracted candidate matches the configured token, and OTHERWISE fall
through to checking the session cookie against the configured token. -/
def validate_token (access_token : Str) (hs jar : List (Str × Str)) : Bool :=
  (match extract_token_from_header hs with
   | some t => constant_time_compare t access_token
   | none => false) ||
  (match cookie_lookup jar with
   | some v => constant_time_compare v access_token
   | none => false)

/-- Definition following the claim's words: the single candidate credential,
preferring the dedicated header, then the Bearer authorization header, then
the named session cookie. -/
def single_candidate (hs jar : List (Str × Str)) : Option Str :=
  match extract_token_from_header hs with
  | some t => some t
  | none => cookie_lookup jar

/-- Definition following the claim's words: validation succeeds exactly when
the single preference-ordered candidate equals the configured token. -/
def validate_per_claim (access_token : Str) (hs jar : List (Str × Str)) : Bool :=
  match single_candidate hs jar with
  | some c => c == access_token
  | none => false

/- ===== access-rank resolution (called from proxy.rs as
`crate::files::get_access_rank_iri`, but not defined in the sources) ===== -/

/-- Outcome of one upstream query against the graph store. -/
inductive UpstreamResult (α : Type)
  | unreachable
  | httpError (status : Nat)
  | ok (value : α)

/-- Whether an upstream query failed (store unreachable or non-success
status). -/
def upstream_failed : UpstreamResult (List Int) → Bool
  | .ok _ => false
  | _ => true

/-- Modelled from the spec: the policy graph as seen through the two
sub-queries of the access-rank resolver.  `public_levels` is the outcome of
the public-policy sub-query (the access levels of all applicable public
policies, containment closure included) and `cred_levels c` the outcome of
the credential-scoped sub-query for credential `c`. -/
structure RankStore where
  public_levels : UpstreamResult (List Int)
  cred_levels : Str → UpstreamResult (List Int)

/-- Modelled from the spec: the rank contributed by one sub-query — the
maximum of the applicable levels and 0 ("absence of any matching policy
yields rank 0"), with any upstream failure treated as rank 0
(fail-closed). -/
def levels_rank : UpstreamResult (List Int) → Int
  | .unreachable => 0
  | .httpError _ => 0
  | .ok ls => ls.foldl max 0

/-- Modelled from the spec: `get_access_rank_iri`, whose defining module is
not among the sources (proxy.rs imports it from files.rs, where it does not
appear).  Per spec section 4.2 the two independent sub-queries are combined
by taking the maximum, the credential-scoped one evaluated only when a
credential is present; the function never raises. -/
def get_access_rank_iri (store : RankStore) (credential : Option Str) : Int :=
  match credential with
  | none => levels_rank store.public_levels
  | some c => max (levels_rank store.public_levels) (levels_rank (store.cred_levels c))

/- ===== files.rs : directory listing order ===== -/

/-- Directory entry as parsed from the SPARQL bindings (files.rs lines
234-239). -/
structure DirEntry where
  label : Str
  is_dir : Bool
deriving DecidableEq

/-- Comparator used in `lookup_directory_contents` (files.rs lines 380-387),
as the "less or equal" Boolean relation of the `sort_by` call: directories
first, then case-insensitively by label (Rust compares the lowercased labels
lexicographically). -/
def entry_le (a b : DirEntry) : Bool :=
  match a.is_dir, b.is_dir with
  | true, false => true
  | false, true => false
  | _, _ => decide (lower a.label ≤ lower b.label)

/-- The `entries.sort_by(...)` call of `lookup_directory_contents`: a stable
merge sort by `entry_le`, as Rust `sort_by`. -/
def sort_dir_entries (l : List DirEntry) : List DirEntry :=
  l.mergeSort entry_le

/- ===== files.rs : streaming upload ===== -/

/-- Global upload ceiling (files.rs line 18): 4 GiB. -/
def MAX_UPLOAD_SIZE : Nat := 4 * 1024 * 1024 * 1024

/-- How a multipart field's chunk stream ends: a clean end of stream
(`Ok(None)`) or a stream read error (`Err`). -/
inductive StreamEnd
  | eof
  | failed
deriving DecidableEq, Inhabited

/-- One multipart field as consumed by `upload_handler`: the client-supplied
file name (absent for non-file fields), the fresh UUID generated for it, the
byte chunks delivered by `stream.chunk()`, how the stream ends, and whether
the SPARQL indexing update for it succeeds. -/
structure MultipartField where
  client_name : Option Str
  uuid : Str
  chunks : List (List Nat)
  ending : StreamEnd
  index_ok : Bool
deriving DecidableEq, Inhabited

/-- Sanitization in `upload_handler` (files.rs lines 738-742):
`PathBuf::from(name).file_name()`, i.e. the last '/'-separated component with
empty and "." components ignored, `None` (empty path or trailing "..") giving
"unnamed".  (Unix separators; the claims do not involve Windows paths.) -/
def sanitize_file_name (original : Str) : Str :=
  let comps := (split_parts '/' original).filter fun c => !(c == "".data) && !(c == ".".data)
  match comps.getLast? with
  | none => "unnamed".data
  | some lastc => if lastc == "..".data then "unnamed".data else lastc

/-- Rejection test in `upload_handler` (files.rs line 744):
`safe_filename.is_empty() || safe_filename.starts_with('.')` makes the field
be skipped. -/
def upload_name_rejected (n : Str) : Bool :=
  n.isEmpty || List.isPrefixOf ".".data n

/-- The streaming loop of `upload_handler` (files.rs lines 767-792): each
chunk first increases the cumulative request total, the write aborts as soon
as the total exceeds `MAX_UPLOAD_SIZE` (the partial file is then removed and
the whole request fails), otherwise the chunk is appended to the file.
Returns the written content and the new running total, or `none` on abort.
Local disk writes themselves are modelled as succeeding. -/
def write_chunks : Nat → List (List Nat) → List Nat → Option (List Nat × Nat)
  | total, [], acc => some (acc, total)
  | total, c :: rest, acc =>
    if total + c.length > MAX_UPLOAD_SIZE then none
    else write_chunks (total + c.length) rest (acc ++ c)

/-- State threaded through `upload_handler`: the physical files directory
(stored name and bytes), the cumulative request total, the per-file success
summary `uploaded_files`, and the server-side record of which stored files
had their SPARQL indexing succeed (the code only logs this; it is never part
of the response). -/
structure UploadState where
  disk : List (Str × List Nat)
  total : Nat
  uploaded : List Str
  indexed : List (Str × Bool)
deriving DecidableEq

/-- Responses `upload_handler` can produce from its field loop onward. -/
inductive UploadResponse
  | tooLarge
  | badStream
  | noFiles
  | success (files : List Str)
deriving DecidableEq

/-- The field loop of `upload_handler` (files.rs lines 731-845): skip fields
without a file name or with a rejected sanitized name; otherwise create the
physical file `{uuid}.{extension}` and stream the chunks into it; on a size
abort or a stream error the partial file is removed and the request fails;
on success the SPARQL insert is attempted and its outcome recorded (logged)
but the file name is pushed to the summary either way.  After the last field
the response is a per-file success summary, or 400 when nothing was
uploaded. -/
def process_fields : UploadState → List MultipartField → UploadState × UploadResponse
  | st, [] => (st, if st.uploaded.isEmpty then .noFiles else .success st.uploaded)
  | st, f :: rest =>
    match f.client_name with
    | none => process_fields st rest
    | some orig =>
      let safe := sanitize_file_name orig
      if upload_name_rejected safe then process_fields st rest
      else
        let stored := stored_file_name f.uuid (upload_extension safe)
        match write_chunks st.total f.chunks [] with
        | none => (st, .tooLarge)
        | some (content, total2) =>
          match f.ending with
          | .failed => (st, .badStream)
          | .eof =>
            process_fields
              { disk := st.disk ++ [(stored, content)]
                total := total2
                uploaded := st.uploaded ++ [safe]
                indexed := st.indexed ++ [(stored, f.index_ok)] } rest

/-- The whole field-processing phase of `upload_handler`, starting from an
empty request state (authentication and the upload-directory lookup have
already succeeded; they precede the loop in the code). -/
def run_upload (fields : List MultipartField) : UploadState × UploadResponse :=
  process_fields ⟨[], 0, [], []⟩ fields

/-- Sanitized name of a field (fields without a client name are never
processed). -/
def field_safe_name (f : MultipartField) : Str :=
  sanitize_file_name (f.client_name.getD [])

/-- Stored physical name a processed field receives. -/
def field_stored_name (f : MultipartField) : Str :=
  stored_file_name f.uuid (upload_extension (field_safe_name f))

/-- The complete disk entry a fully-written field produces: its stored name
with all of its bytes. -/
def full_entry (f : MultipartField) : Str × List Nat :=
  (field_stored_name f, f.chunks.flatten)

/-- Whether a field is processed (has a file name that survives
sanitization). -/
def is_processed (f : MultipartField) : Bool :=
  match f.client_name with
  | none => false
  | some orig => !(upload_name_rejected (sanitize_file_name orig))

/-- Bytes a field delivers. -/
def field_bytes (f : MultipartField) : Nat :=
  (f.chunks.map List.length).sum

/-- The processed fields of a request, in order. -/
def proc_fields (fields : List MultipartField) : List MultipartField :=
  fields.filter is_processed

/-- Cumulative bytes received across the whole request (only processed
fields are streamed; skipped fields are never read). -/
def request_bytes (fields : List MultipartField) : Nat :=
  ((proc_fields fields).map field_bytes).sum

/-- Field with its indexing outcome replaced, for stating that the indexing
outcome never influences the response or the disk. -/
def set_index_ok (b : Bool) (f : MultipartField) : MultipartField :=
  { f with index_ok := b }

/- ===== liqk-crypto/src/main.rs : hybrid file encryption ===== -/

/-- Nonce size of ChaCha20Poly1305 (main.rs line 18). -/
def NONCE_SIZE : Nat := 12

/-- X-Wing KEM ciphertext size (main.rs line 22). -/
def XWING_CT_SIZE : Nat := 1120

/-- Interface of the X-Wing KEM as used through `libcrux_kem` (an external
library): encapsulation against a public key with given randomness yields a
shared secret and a ciphertext whose encoding is `XWING_CT_SIZE` bytes long,
and decapsulation with the matching secret key recovers the shared
secret. -/
structure KemSpec where
  encap : List Nat → List Nat → List Nat × List Nat
  decap : List Nat → List Nat → Option (List Nat)
  keypair : List Nat → List Nat → Prop
  ct_len : ∀ pk r, (encap pk r).2.length = XWING_CT_SIZE
  decap_encap : ∀ pk sk r, keypair pk sk → decap (encap pk r).2 sk = some (encap pk r).1

/-- Interface of the ChaCha20Poly1305 AEAD as used through the
`chacha20poly1305` crate (an external library): decrypting an encryption
under the same key and nonce recovers the plaintext. -/
structure AeadSpec where
  enc : List Nat → List Nat → List Nat → Option (List Nat)
  dec : List Nat → List Nat → List Nat → Option (List Nat)
  dec_enc : ∀ key nonce pt ct, enc key nonce pt = some ct → dec key nonce ct = some pt

/-- Translation of `encrypt` (main.rs lines 134-184), with the KEM, the AEAD
and the HKDF key derivation abstracted: encapsulate, derive the symmetric
key from the shared secret, encrypt the plaintext, and emit
`nonce || kem_ciphertext || symmetric_ciphertext`. -/
def encrypt_file (K : KemSpec) (A : AeadSpec) (kdf : List Nat → List Nat)
    (pk plaintext encap_rand nonce : List Nat) : Option (List Nat) :=
  let ss_ct := K.encap pk encap_rand
  match A.enc (kdf ss_ct.1) nonce plaintext with
  | none => none
  | some ct => some (nonce ++ ss_ct.2 ++ ct)

/-- Translation of `decrypt` (main.rs lines 186-241): reject inputs shorter
than `NONCE_SIZE + XWING_CT_SIZE`, slice the input into nonce, KEM
ciphertext and AEAD ciphertext, decapsulate, derive the key, and decrypt. -/
def decrypt_file (K : KemSpec) (A : AeadSpec) (kdf : List Nat → List Nat)
    (sk encrypted : List Nat) : Option (List Nat) :=
  if encrypted.length < NONCE_SIZE + XWING_CT_SIZE then none
  else
    let nonce := encrypted.take NONCE_SIZE
    let kem_ct := (encrypted.drop NONCE_SIZE).take XWING_CT_SIZE
    let ct := encrypted.drop (NONCE_SIZE + XWING_CT_SIZE)
    match K.decap kem_ct sk with
    | none => none
    | some ss => A.dec (kdf ss) nonce ct

/-- Toy key-encapsulation instance satisfying the KEM interface, used to
exercise the encryption model on concrete inputs. -/
def toy_kem : KemSpec where
  encap := fun pk _ => (pk, List.replicate XWING_CT_SIZE 0)
  decap := fun _ sk => some sk
  keypair := fun pk sk => pk = sk
  ct_len := fun _ _ => by simp
  decap_encap := fun _ _ _ h => by rw [h]

/-- Toy AEAD instance satisfying the AEAD interface, used to exercise the
encryption model on concrete inputs. -/
def toy_aead : AeadSpec where
  enc := fun _ _ pt => some pt
  dec := fun _ _ ct => some ct
  dec_enc := fun _ _ _ _ h => by injection h with h2; rw [h2]

/- ===================== Theorems ===================== -/

/- Helper lemmas about the dot-splitting used by `extract_extension`. -/

theorem join_dot_cons (c : Char) (p : Str) (ps : List Str) :
    join_dot (c :: p) ps = c :: join_dot p ps := by
  cases ps <;> simp [join_dot]

theorem split_dot_join (f : Str) :
    join_dot (char_split '.' f).1 (char_split '.' f).2 = f := by
  induction f with
  | nil => rfl
  | cons c cs ih =>
    simp only [char_split]
    by_cases h : c = '.'
    · subst h
      simp only [if_pos rfl, join_dot]
      simpa using ih
    · simp only [if_neg h, join_dot_cons]
      rw [ih]

theorem split_dot_head_no_dot (f : Str) : '.' ∉ (char_split '.' f).1 := by
  induction f with
  | nil => simp [char_split]
  | cons c cs ih =>
    simp only [char_split]
    by_cases h : c = '.'
    · subst h; simp
    · simp only [if_neg h]
      intro hmem
      rcases List.mem_cons.mp hmem with h1 | h1
      · exact h h1.symm
      · exact ih h1

theorem split_dot_snd_nil_iff (f : Str) : (char_split '.' f).2 = [] ↔ '.' ∉ f := by
  induction f with
  | nil => simp [char_split]
  | cons c cs ih =>
    simp only [char_split]
    by_cases h : c = '.'
    · subst h; simp
    · simp only [if_neg h, List.mem_cons]
      rw [ih]
      constructor
      · intro hn hor
        rcases hor with h1 | h1
        · exact h h1.symm
        · exact hn h1
      · intro hn
        exact fun h1 => hn (Or.inr h1)

/-- C2 counterexample: the claim says the raw credential string is never
written to persistent storage, but `save_env_file` persists the raw access
token verbatim in the `.env` file content — here the concrete token
"00112233445566778899aabbccddeeff" occurs as a substring of what is written
to disk, and the written content is exactly the two raw configuration
lines (no digest is derived anywhere in the gateway sources). -/
theorem c2_counterexample :
    env_file_content "00112233445566778899aabbccddeeff".data "http://localhost:7878".data
      = "ACCESS_TOKEN=00112233445566778899aabbccddeeff\nOXIGRAPH_URL=http://localhost:7878\n".data ∧
    List.IsInfix "00112233445566778899aabbccddeeff".data
      (env_file_content "00112233445566778899aabbccddeeff".data "http://localhost:7878".data) := by
  refine ⟨by decide, "ACCESS_TOKEN=".data, "\nOXIGRAPH_URL=http://localhost:7878\n".data, by decide⟩

/-- C2 amended: when the gateway generates a fresh access token,
`save_env_file` writes the RAW token to the persistent `.env` file as the
`ACCESS_TOKEN` value (for every token and upstream URL, the token occurs
verbatim inside the written content); no digest of the credential is
derived or stored. -/
theorem c2_raw_token_persisted (token oxigraph_url : Str) :
    env_file_content token oxigraph_url =
      "ACCESS_TOKEN=".data ++ token ++ ("\nOXIGRAPH_URL=".data ++ oxigraph_url ++ "\n".data) ∧
    List.IsInfix token (env_file_content token oxigraph_url) := by
  constructor
  · simp [env_file_content]
  · exact ⟨"ACCESS_TOKEN=".data, "\nOXIGRAPH_URL=".data ++ oxigraph_url ++ "\n".data,
      by simp [env_file_content]⟩

/-- C4 counterexample: for the client-supplied name "archive.tar.gz" the code
stores extension "tar.gz" (everything after the first dot), not the last
dot-delimited suffix "gz" that the claim describes. -/
theorem c4_counterexample :
    extract_extension "archive.tar.gz".data = some "tar.gz".data ∧
    last_dot_suffix "archive.tar.gz".data = some "gz".data ∧
    extract_extension "archive.tar.gz".data ≠ last_dot_suffix "archive.tar.gz".data := by
  decide

/-- C4 amended: for every client-supplied name containing at least one dot,
the stored extension is everything after the FIRST dot (the full dotted
suffix chain, e.g. "tar.gz" for "archive.tar.gz"); a name with no dot falls
back to the generic binary extension "bin"; and the physical filename is the
freshly generated UUID, a dot, and that extension. -/
theorem c4_extension_amended (f uuid : Str) :
    ('.' ∈ f → ∃ p e, extract_extension f = some e ∧ '.' ∉ p ∧
      f = p ++ '.' :: e ∧ upload_extension f = e) ∧
    ('.' ∉ f → extract_extension f = none ∧ upload_extension f = "bin".data) ∧
    stored_file_name uuid (upload_extension f) = uuid ++ '.' :: upload_extension f := by
  refine ⟨?_, ?_, rfl⟩
  · intro hdot
    have hjoin := split_dot_join f
    have hhead := split_dot_head_no_dot f
    rcases hsnd : (char_split '.' f).2 with _ | ⟨e, rest⟩
    · exact absurd hdot (by simpa using (split_dot_snd_nil_iff f).mp hsnd)
    · refine ⟨(char_split '.' f).1, join_dot e rest, ?_, hhead, ?_, ?_⟩
      · unfold extract_extension
        rcases hsp : char_split '.' f with ⟨p, ps⟩
        rw [hsp] at hsnd
        simp at hsnd
        rw [hsnd]
      · rw [hsnd] at hjoin
        calc f = join_dot (char_split '.' f).1 (e :: rest) := hjoin.symm
          _ = (char_split '.' f).1 ++ '.' :: join_dot e rest := rfl
      · unfold upload_extension extract_extension
        rcases hsp : char_split '.' f with ⟨p, ps⟩
        rw [hsp] at hsnd
        simp at hsnd
        rw [hsnd]
        rfl
  · intro hnodot
    have hsnd : (char_split '.' f).2 = [] := (split_dot_snd_nil_iff f).mpr hnodot
    constructor
    · unfold extract_extension
      rcases hsp : char_split '.' f with ⟨p, ps⟩
      rw [hsp] at hsnd
      simp only at hsnd
      rw [hsnd]
    · unfold upload_extension extract_extension
      rcases hsp : char_split '.' f with ⟨p, ps⟩
      rw [hsp] at hsnd
      simp only at hsnd
      rw [hsnd]
      rfl

/-- C4 witness: the amended theorem applied to the dotted name
"archive.tar.gz" and the dotless name "noext". -/
theorem c4_extension_witness :
    (∃ p e, extract_extension "archive.tar.gz".data = some e ∧ '.' ∉ p ∧
      "archive.tar.gz".data = p ++ '.' :: e ∧ upload_extension "archive.tar.gz".data = e) ∧
    (extract_extension "noext".data = none ∧ upload_extension "noext".data = "bin".data) :=
  ⟨(c4_extension_amended "archive.tar.gz".data []).1 (by decide),
   (c4_extension_amended "noext".data []).2.1 (by decide)⟩

theorem should_forward_not_denied (n : Str) (h : should_forward_header n = true) :
    lower n ∉ claim_deny_list := by
  intro hmem
  simp only [claim_deny_list, List.mem_cons, List.not_mem_nil, or_false] at hmem
  rcases hmem with h1 | h1 | h1 | h1 | h1 | h1 | h1 | h1 | h1 | h1 | h1 <;>
    simp [should_forward_header, h1] at h

/-- C5: every header forwarded with the outbound request, and every upstream
response header relayed back, has a lowercased name outside the fixed
deny-list (cookie, authorization, x-access-token, and the hop-by-hop
connection-management headers); the same deny-list predicate filters both
directions. -/
theorem c5_deny_list_enforced (hs rs : List (Str × Str)) (p q : Str × Str)
    (hreq : p ∈ forward_request_headers hs)
    (hresp : q ∈ forward_response_headers rs) :
    lower p.1 ∉ claim_deny_list ∧ lower q.1 ∉ claim_deny_list :=
  ⟨should_forward_not_denied p.1 (List.mem_filter.mp hreq).2,
   should_forward_not_denied q.1 (List.mem_filter.mp hresp).2⟩

/-- C5 witness: concrete header sets containing a Cookie header and a
Set-Cookie-free Accept header; the forwarded Accept entry is outside the
deny-list. -/
theorem c5_deny_list_witness :
    ("Accept".data, "text/html".data) ∈
      forward_request_headers
        [("Cookie".data, "session=abc".data), ("Accept".data, "text/html".data)] ∧
    lower "Accept".data ∉ claim_deny_list :=
  ⟨by decide,
   (c5_deny_list_enforced
      [("Cookie".data, "session=abc".data), ("Accept".data, "text/html".data)]
      [("Content-Type".data, "application/json".data)]
      ("Accept".data, "text/html".data)
      ("Content-Type".data, "application/json".data)
      (by decide) (by decide)).1⟩

theorem constant_time_compare_eq (a b : Str) :
    constant_time_compare a b = true ↔ a = b := by
  by_cases h : a.length = b.length
  · simp [constant_time_compare, h]
  · have hne : a ≠ b := fun heq => h (by rw [heq])
    simp [constant_time_compare, h, hne]

/-- C6 counterexample: with an X-Access-Token header carrying a wrong value
and a session cookie carrying the configured token, the single
preference-ordered candidate of the claim is the (wrong) header value, so
the claim says validation fails — but `validate_token` falls through to the
cookie and succeeds. -/
theorem c6_counterexample :
    validate_token "a1b2c3".data
      [("X-Access-Token".data, "wrong".data)]
      [(TOKEN_COOKIE_NAME, "a1b2c3".data)] = true ∧
    validate_per_claim "a1b2c3".data
      [("X-Access-Token".data, "wrong".data)]
      [(TOKEN_COOKIE_NAME, "a1b2c3".data)] = false := by
  constructor
  · decide
  · decide

/-- C6 amended: header extraction produces at most one candidate from the
headers, preferring the dedicated X-Access-Token header over a
Bearer-prefixed Authorization header; validation succeeds exactly when the
header candidate equals the configured token OR the named session cookie
equals the configured token (the cookie is consulted even when a header
candidate is present but wrong). -/
theorem c6_validation_amended (access_token : Str) (hs jar : List (Str × Str)) :
    (validate_token access_token hs jar = true ↔
      (extract_token_from_header hs = some access_token ∨
       cookie_lookup jar = some access_token)) ∧
    (∀ v, header_lookup "X-Access-Token".data hs = some v →
      extract_token_from_header hs = some v) := by
  constructor
  · unfold validate_token
    rcases hx : extract_token_from_header hs with _ | t <;>
      rcases hc : cookie_lookup jar with _ | v <;>
        simp [constant_time_compare_eq]
  · intro v hv
    unfold extract_token_from_header
    rw [hv]

/-- C6 witness: the amended theorem applied to a request carrying only the
dedicated header with the right token. -/
theorem c6_validation_witness :
    validate_token "tok123".data [("x-access-token".data, "tok123".data)] [] = true :=
  ((c6_validation_amended "tok123".data
      [("x-access-token".data, "tok123".data)] []).1).mpr (Or.inl (by decide))

/-- C8 counterexample: a GET request to the path "/update" is not a mutating
operation, yet the code requires edit rank 3 for it — the required rank is
determined by the path prefix alone, not by whether the verb is mutating,
so it differs from the rank the claim prescribes. -/
theorem c8_counterexample :
    proxy_required_rank HttpMethod.get "/update".data = 3 ∧
    is_mutating_verb HttpMethod.get = false ∧
    claim_required_rank HttpMethod.get "/update".data = 1 ∧
    proxy_required_rank HttpMethod.get "/update".data ≠
      claim_required_rank HttpMethod.get "/update".data := by
  refine ⟨by decide, rfl, by decide, by decide⟩

/-- C8 amended: on the fallback pass-through route the required rank is the
edit rank 3 exactly when the lowercased request path starts with "/update",
independent of the HTTP method, and the view rank 1 for all other paths;
the request is allowed exactly when the resolved rank reaches that
threshold. -/
theorem c8_required_rank_amended (m m2 : HttpMethod) (rank : Int) (path : Str) :
    proxy_required_rank m path = proxy_required_rank m2 path ∧
    (List.isPrefixOf "/update".data (lower path) = true →
      (proxy_allows rank path = true ↔ 3 ≤ rank)) ∧
    (List.isPrefixOf "/update".data (lower path) = false →
      (proxy_allows rank path = true ↔ 1 ≤ rank)) := by
  refine ⟨rfl, ?_, ?_⟩ <;> intro h <;>
    simp [proxy_allows, required_rank_for_path, h]

/-- C8 witness: the amended theorem applied to the non-update path "/query"
with rank 1, and to the update path "/update" with rank 3. -/
theorem c8_required_rank_witness :
    proxy_allows 1 "/query".data = true ∧ proxy_allows 3 "/update".data = true :=
  ⟨((c8_required_rank_amended .get .post 1 "/query".data).2.2 (by decide)).mpr (by norm_num),
   ((c8_required_rank_amended .get .post 3 "/update".data).2.1 (by decide)).mpr (by norm_num)⟩

theorem foldl_max_le_init (i : Int) (ls : List Int) : i ≤ ls.foldl max i := by
  induction ls generalizing i with
  | nil => exact le_refl i
  | cons c cs ih =>
    simp only [List.foldl]
    exact le_trans (le_max_left i c) (ih (max i c))

theorem levels_rank_nonneg (r : UpstreamResult (List Int)) : 0 ≤ levels_rank r := by
  cases r with
  | unreachable => exact le_refl 0
  | httpError s => exact le_refl 0
  | ok ls => exact foldl_max_le_init 0 ls

theorem levels_rank_of_failed (r : UpstreamResult (List Int))
    (h : upstream_failed r = true) : levels_rank r = 0 := by
  cases r with
  | unreachable => rfl
  | httpError s => rfl
  | ok ls => simp [upstream_failed] at h

/-- C1: for every policy-graph view and optional credential, the access-rank
resolution returns an integer greater than or equal to 0 and is a total
function (it never raises); when the upstream sub-queries fail — the store
is unreachable or returns a non-success status — the result is rank 0, so
no error propagates past the dispatcher boundary. -/
theorem c1_rank_fail_closed (store : RankStore) (credential : Option Str) :
    0 ≤ get_access_rank_iri store credential ∧
    (upstream_failed store.public_levels = true →
      (∀ c, credential = some c → upstream_failed (store.cred_levels c) = true) →
      get_access_rank_iri store credential = 0) := by
  constructor
  · cases credential with
    | none => exact levels_rank_nonneg store.public_levels
    | some c =>
      show 0 ≤ max (levels_rank store.public_levels) (levels_rank (store.cred_levels c))
      exact le_trans (levels_rank_nonneg store.public_levels) (le_max_left _ _)
  · intro hp hc
    unfold get_access_rank_iri
    cases credential with
    | none => exact levels_rank_of_failed _ hp
    | some c =>
      show max (levels_rank store.public_levels) (levels_rank (store.cred_levels c)) = 0
      rw [levels_rank_of_failed _ hp, levels_rank_of_failed _ (hc c rfl)]
      exact max_self 0

/-- C1 witness: the theorem applied to a store whose sub-queries are all
unreachable and to a concrete presented credential. -/
theorem c1_rank_fail_closed_witness :
    0 ≤ get_access_rank_iri ⟨.unreachable, fun _ => .unreachable⟩ (some "secret123".data) ∧
    get_access_rank_iri ⟨.unreachable, fun _ => .unreachable⟩ (some "secret123".data) = 0 :=
  ⟨(c1_rank_fail_closed ⟨.unreachable, fun _ => .unreachable⟩ (some "secret123".data)).1,
   (c1_rank_fail_closed ⟨.unreachable, fun _ => .unreachable⟩ (some "secret123".data)).2
     rfl (fun _ _ => rfl)⟩

theorem entry_le_trans (a b c : DirEntry)
    (h1 : entry_le a b = true) (h2 : entry_le b c = true) : entry_le a c = true := by
  rcases a with ⟨la, da⟩
  rcases b with ⟨lb, db⟩
  rcases c with ⟨lc, dc⟩
  cases da <;> cases db <;> cases dc <;> simp_all [entry_le] <;>
    exact le_trans h1 h2

theorem entry_le_total (a b : DirEntry) :
    (entry_le a b || entry_le b a) = true := by
  rcases a with ⟨la, da⟩
  rcases b with ⟨lb, db⟩
  cases da <;> cases db <;> simp [entry_le] <;> exact le_total _ _

theorem entry_le_spec (a b : DirEntry) (h : entry_le a b = true) :
    (b.is_dir = true → a.is_dir = true) ∧
    (a.is_dir = b.is_dir → lower a.label ≤ lower b.label) := by
  rcases a with ⟨la, da⟩
  rcases b with ⟨lb, db⟩
  cases da <;> cases db <;> simp_all [entry_le]

/-- C9: the directory listing is a permutation of the parsed entries, sorted
so that every directory entry precedes every file entry and entries of the
same kind are ordered case-insensitively by label. -/
theorem c9_listing_sorted (l : List DirEntry) :
    (sort_dir_entries l).Perm l ∧
    (sort_dir_entries l).Pairwise (fun a b =>
      (b.is_dir = true → a.is_dir = true) ∧
      (a.is_dir = b.is_dir → lower a.label ≤ lower b.label)) := by
  constructor
  · exact List.mergeSort_perm l entry_le
  · have hs := List.sorted_mergeSort entry_le_trans entry_le_total l
    exact hs.imp fun h => entry_le_spec _ _ h

/-- C10: decrypting an encryption — for any KEM satisfying the X-Wing
interface contract, any AEAD satisfying its decryption contract, any key
derivation function, any matching key pair and any input bytes — recovers
exactly the original bytes from the `nonce || kem_ciphertext ||
aead_ciphertext` framing. -/
theorem c10_roundtrip (K : KemSpec) (A : AeadSpec) (kdf : List Nat → List Nat)
    (pk sk plaintext encap_rand nonce out : List Nat)
    (hkp : K.keypair pk sk) (hn : nonce.length = NONCE_SIZE)
    (henc : encrypt_file K A kdf pk plaintext encap_rand nonce = some out) :
    decrypt_file K A kdf sk out = some plaintext := by
  simp only [encrypt_file] at henc
  rcases hct : A.enc (kdf (K.encap pk encap_rand).1) nonce plaintext with _ | ct
  · rw [hct] at henc
    simp at henc
  · rw [hct] at henc
    simp only [Option.some.injEq] at henc
    subst henc
    have hctlen : (K.encap pk encap_rand).2.length = XWING_CT_SIZE := K.ct_len pk encap_rand
    unfold decrypt_file
    rw [if_neg (by simp [hn, hctlen])]
    have hassoc : nonce ++ (K.encap pk encap_rand).2 ++ ct
        = nonce ++ ((K.encap pk encap_rand).2 ++ ct) := by
      rw [List.append_assoc]
    have htake : (nonce ++ (K.encap pk encap_rand).2 ++ ct).take NONCE_SIZE = nonce := by
      rw [hassoc]; exact List.take_left' hn
    have hdrop : (nonce ++ (K.encap pk encap_rand).2 ++ ct).drop NONCE_SIZE
        = (K.encap pk encap_rand).2 ++ ct := by
      rw [hassoc]; exact List.drop_left' hn
    have htake2 : ((K.encap pk encap_rand).2 ++ ct).take XWING_CT_SIZE
        = (K.encap pk encap_rand).2 := List.take_left' hctlen
    have hdrop2 : (nonce ++ (K.encap pk encap_rand).2 ++ ct).drop (NONCE_SIZE + XWING_CT_SIZE)
        = ct := by
      exact List.drop_left' (by simp [hn, hctlen])
    simp only [htake, hdrop, htake2, hdrop2, K.decap_encap pk sk encap_rand hkp]
    exact A.dec_enc _ _ _ _ hct

/-- C10 witness: the round-trip theorem applied to the toy KEM and AEAD
instances with a concrete key pair, nonce and plaintext. -/
theorem c10_roundtrip_witness :
    decrypt_file toy_kem toy_aead id (List.replicate 32 7)
      (List.replicate NONCE_SIZE 9 ++ List.replicate XWING_CT_SIZE 0 ++ [1, 2, 3])
      = some [1, 2, 3] :=
  c10_roundtrip toy_kem toy_aead id (List.replicate 32 7) (List.replicate 32 7)
    [1, 2, 3] [] (List.replicate NONCE_SIZE 9)
    (List.replicate NONCE_SIZE 9 ++ List.replicate XWING_CT_SIZE 0 ++ [1, 2, 3])
    rfl (by simp) rfl

theorem write_chunks_ok (chunks : List (List Nat)) (total : Nat) (acc : List Nat)
    (h : total + (chunks.map List.length).sum ≤ MAX_UPLOAD_SIZE) :
    write_chunks total chunks acc =
      some (acc ++ chunks.flatten, total + (chunks.map List.length).sum) := by
  induction chunks generalizing total acc with
  | nil => simp [write_chunks]
  | cons c rest ih =>
    simp only [List.map_cons, List.sum_cons] at h
    have hnov : ¬(total + c.length > MAX_UPLOAD_SIZE) := by omega
    simp only [write_chunks, if_neg hnov]
    rw [ih (total + c.length) (acc ++ c) (by omega)]
    simp [List.append_assoc]
    omega

theorem write_chunks_overflow (chunks : List (List Nat)) (total : Nat) (acc : List Nat)
    (hle : total ≤ MAX_UPLOAD_SIZE)
    (h : MAX_UPLOAD_SIZE < total + (chunks.map List.length).sum) :
    write_chunks total chunks acc = none := by
  induction chunks generalizing total acc with
  | nil => simp at h; omega
  | cons c rest ih =>
    simp only [List.map_cons, List.sum_cons] at h
    by_cases hov : total + c.length > MAX_UPLOAD_SIZE
    · simp [write_chunks, if_pos hov]
    · simp only [write_chunks, if_neg hov]
      exact ih (total + c.length) (acc ++ c) (by omega) (by omega)

theorem proc_fields_cons_skip (f : MultipartField) (rest : List MultipartField)
    (hp : is_processed f = false) :
    proc_fields (f :: rest) = proc_fields rest := by
  simp [proc_fields, hp]

theorem proc_fields_cons_keep (f : MultipartField) (rest : List MultipartField)
    (hp : is_processed f = true) :
    proc_fields (f :: rest) = f :: proc_fields rest := by
  simp [proc_fields, hp]

theorem process_fields_ok (fields : List MultipartField) (st : UploadState)
    (heof : ∀ f ∈ fields, f.ending = StreamEnd.eof)
    (hsize : st.total + request_bytes fields ≤ MAX_UPLOAD_SIZE) :
    process_fields st fields =
      ({ disk := st.disk ++ (proc_fields fields).map full_entry
         total := st.total + request_bytes fields
         uploaded := st.uploaded ++ (proc_fields fields).map field_safe_name
         indexed := st.indexed ++ (proc_fields fields).map fun f => (field_stored_name f, f.index_ok) },
       if (st.uploaded ++ (proc_fields fields).map field_safe_name).isEmpty
       then UploadResponse.noFiles
       else UploadResponse.success
         (st.uploaded ++ (proc_fields fields).map field_safe_name)) := by
  induction fields generalizing st with
  | nil => simp [process_fields, proc_fields, request_bytes]
  | cons f rest ih =>
    have heof_rest : ∀ g ∈ rest, g.ending = StreamEnd.eof :=
      fun g hg => heof g (List.mem_cons_of_mem f hg)
    rcases hname : f.client_name with _ | orig
    · have hp : is_processed f = false := by simp [is_processed, hname]
      have hpf := proc_fields_cons_skip f rest hp
      have hrb : request_bytes (f :: rest) = request_bytes rest := by
        simp [request_bytes, hpf]
      simp only [process_fields, hname]
      rw [hrb] at hsize
      rw [hpf, hrb]
      exact ih st heof_rest hsize
    · simp only [process_fields, hname]
      by_cases hrej : upload_name_rejected (sanitize_file_name orig) = true
      · have hp : is_processed f = false := by simp [is_processed, hname, hrej]
        have hpf := proc_fields_cons_skip f rest hp
        have hrb : request_bytes (f :: rest) = request_bytes rest := by
          simp [request_bytes, hpf]
        rw [if_pos hrej]
        rw [hrb] at hsize
        rw [hpf, hrb]
        exact ih st heof_rest hsize
      · have hp : is_processed f = true := by
          simp [is_processed, hname, hrej]
        have hpf := proc_fields_cons_keep f rest hp
        have hrb : request_bytes (f :: rest) = field_bytes f + request_bytes rest := by
          simp [request_bytes, hpf]
        rw [hrb] at hsize
        have hwc : write_chunks st.total f.chunks []
            = some (f.chunks.flatten, st.total + field_bytes f) := by
          have hb : (f.chunks.map List.length).sum = field_bytes f := rfl
          have := write_chunks_ok f.chunks st.total [] (by omega)
          simpa [hb] using this
        have hend : f.ending = StreamEnd.eof := heof f (List.mem_cons_self f rest)
        have hsafe : field_safe_name f = sanitize_file_name orig := by
          simp [field_safe_name, hname]
        have hfe : full_entry f
            = (stored_file_name f.uuid (upload_extension (sanitize_file_name orig)),
               f.chunks.flatten) := by
          simp [full_entry, field_stored_name, hsafe]
        have hfn : field_stored_name f
            = stored_file_name f.uuid (upload_extension (sanitize_file_name orig)) := by
          simp [field_stored_name, hsafe]
        rw [if_neg hrej, hwc, hend]
        dsimp only
        rw [ih _ heof_rest (by simp; omega)]
        rw [hpf]
        simp [hfe, hfn, hsafe, hrb, List.append_assoc, Nat.add_assoc]

theorem process_fields_overflow (fields : List MultipartField) (st : UploadState)
    (heof : ∀ f ∈ fields, f.ending = StreamEnd.eof)
    (hle : st.total ≤ MAX_UPLOAD_SIZE)
    (h : MAX_UPLOAD_SIZE < st.total + request_bytes fields) :
    ∃ k, k < (proc_fields fields).length ∧
      (process_fields st fields).1.disk
        = st.disk ++ ((proc_fields fields).map full_entry).take k ∧
      (process_fields st fields).2 = UploadResponse.tooLarge := by
  induction fields generalizing st with
  | nil =>
    exfalso
    simp [request_bytes, proc_fields] at h
    omega
  | cons f rest ih =>
    have heof_rest : ∀ g ∈ rest, g.ending = StreamEnd.eof :=
      fun g hg => heof g (List.mem_cons_of_mem f hg)
    rcases hname : f.client_name with _ | orig
    · have hp : is_processed f = false := by simp [is_processed, hname]
      have hpf := proc_fields_cons_skip f rest hp
      have hrb : request_bytes (f :: rest) = request_bytes rest := by
        simp [request_bytes, hpf]
      simp only [process_fields, hname]
      rw [hrb] at h
      rw [hpf]
      exact ih st heof_rest hle h
    · simp only [process_fields, hname]
      by_cases hrej : upload_name_rejected (sanitize_file_name orig) = true
      · have hp : is_processed f = false := by simp [is_processed, hname, hrej]
        have hpf := proc_fields_cons_skip f rest hp
        have hrb : request_bytes (f :: rest) = request_bytes rest := by
          simp [request_bytes, hpf]
        rw [if_pos hrej]
        rw [hrb] at h
        rw [hpf]
        exact ih st heof_rest hle h
      · have hp : is_processed f = true := by
          simp [is_processed, hname, hrej]
        have hpf := proc_fields_cons_keep f rest hp
        have hrb : request_bytes (f :: rest) = field_bytes f + request_bytes rest := by
          simp [request_bytes, hpf]
        rw [hrb] at h
        have hb : (f.chunks.map List.length).sum = field_bytes f := rfl
        by_cases hov : MAX_UPLOAD_SIZE < st.total + field_bytes f
        · have hwc : write_chunks st.total f.chunks [] = none :=
            write_chunks_overflow f.chunks st.total [] hle (by omega)
          rw [if_neg hrej, hwc]
          dsimp only
          refine ⟨0, ?_, ?_, rfl⟩
          · rw [hpf]; simp
          · simp
        · have hwc : write_chunks st.total f.chunks []
              = some (f.chunks.flatten, st.total + field_bytes f) := by
            have := write_chunks_ok f.chunks st.total [] (by omega)
            simpa [hb] using this
          have hend : f.ending = StreamEnd.eof := heof f (List.mem_cons_self f rest)
          have hfe : full_entry f
              = (stored_file_name f.uuid (upload_extension (sanitize_file_name orig)),
                 f.chunks.flatten) := by
            simp [full_entry, field_stored_name, field_safe_name, hname]
          rw [if_neg hrej, hwc, hend]
          dsimp only
          obtain ⟨k, hk1, hk2, hk3⟩ := ih
            { disk := st.disk ++
                [(stored_file_name f.uuid (upload_extension (sanitize_file_name orig)),
                  f.chunks.flatten)]
              total := st.total + field_bytes f
              uploaded := st.uploaded ++ [sanitize_file_name orig]
              indexed := st.indexed ++
                [(stored_file_name f.uuid (upload_extension (sanitize_file_name orig)),
                  f.index_ok)] }
            heof_rest (by simpa using by omega) (by simpa using by omega)
          refine ⟨k + 1, ?_, ?_, hk3⟩
          · rw [hpf]
            simpa using hk1
          · rw [hpf]
            simp only [List.map_cons, List.take_succ_cons, hfe]
            rw [hk2]
            simp [List.append_assoc]

/-- C3: with every field stream ending cleanly, (a) a request whose
cumulative bytes stay within the 4 GiB ceiling (in particular one that
reaches it exactly) succeeds: every processed field ends up on disk with all
of its bytes (nothing is truncated) and the response is the per-file success
summary; (b) a request whose cumulative bytes exceed the ceiling fails with
the payload-too-large outcome, only the fields fully written before the
overflow remain on disk, and (with the generated UUIDs distinct, as fresh
UUIDs are) the target name of the in-flight field is not on disk — the
partial physical file was deleted. -/
theorem c3_upload_size_ceiling (fields : List MultipartField)
    (heof : ∀ f ∈ fields, f.ending = StreamEnd.eof) :
    (request_bytes fields ≤ MAX_UPLOAD_SIZE →
      (run_upload fields).1.disk = (proc_fields fields).map full_entry ∧
      (proc_fields fields ≠ [] →
        (run_upload fields).2
          = UploadResponse.success ((proc_fields fields).map field_safe_name))) ∧
    (MAX_UPLOAD_SIZE < request_bytes fields →
      (run_upload fields).2 = UploadResponse.tooLarge ∧
      ∃ k, k < (proc_fields fields).length ∧
        (run_upload fields).1.disk = ((proc_fields fields).map full_entry).take k ∧
        (((proc_fields fields).map field_stored_name).Nodup →
          ∀ n, ((proc_fields fields).map field_stored_name)[k]? = some n →
            n ∉ (run_upload fields).1.disk.map Prod.fst)) := by
  constructor
  · intro hsize
    have h := process_fields_ok fields ⟨[], 0, [], []⟩ heof (by simpa using hsize)
    unfold run_upload
    rw [h]
    constructor
    · simp
    · intro hne
      have hne2 : (proc_fields fields).map field_safe_name ≠ [] := by
        simpa using hne
      simp [hne2]
  · intro hsize
    obtain ⟨k, hk1, hk2, hk3⟩ := process_fields_overflow fields ⟨[], 0, [], []⟩ heof
      (by simp [MAX_UPLOAD_SIZE]) (by simpa using hsize)
    have hdisk : (run_upload fields).1.disk
        = ((proc_fields fields).map full_entry).take k := by
      unfold run_upload
      simpa using hk2
    refine ⟨hk3, k, hk1, hdisk, ?_⟩
    intro hnodup n hn hmem
    have hnames : ((proc_fields fields).map full_entry).map Prod.fst
        = (proc_fields fields).map field_stored_name := by
      rw [List.map_map]
      rfl
    have hdm : (run_upload fields).1.disk.map Prod.fst
        = ((proc_fields fields).map field_stored_name).take k := by
      rw [hdisk, List.map_take, hnames]
    rw [hdm] at hmem
    have hdropn : n ∈ ((proc_fields fields).map field_stored_name).drop k := by
      apply List.getElem?_mem
      rw [List.getElem?_drop, Nat.add_zero]
      exact hn
    have hsplit := List.take_append_drop k ((proc_fields fields).map field_stored_name)
    rw [← hsplit] at hnodup
    exact (List.nodup_append.mp hnodup).2.2 hmem hdropn

/-- C3 witness: a small in-ceiling request succeeds with its summary, and a
request delivering one byte more than the 4 GiB ceiling is rejected as too
large. -/
theorem c3_upload_size_ceiling_witness :
    (run_upload [⟨some "doc.txt".data, "u1".data, [[5, 6]], StreamEnd.eof, true⟩]).2
      = UploadResponse.success ["doc.txt".data] ∧
    (run_upload [⟨some "big.bin".data, "u2".data,
        [List.replicate (MAX_UPLOAD_SIZE + 1) 0], StreamEnd.eof, true⟩]).2
      = UploadResponse.tooLarge := by
  constructor
  · have h := (c3_upload_size_ceiling
      [⟨some "doc.txt".data, "u1".data, [[5, 6]], StreamEnd.eof, true⟩]
      (by intro f hf; simp at hf; subst hf; rfl)).1 (by decide)
    exact (h.2 (by decide)).trans (by decide)
  · have hp : is_processed ⟨some "big.bin".data, "u2".data,
        [List.replicate (MAX_UPLOAD_SIZE + 1) 0], StreamEnd.eof, true⟩ = true := by
      decide
    have hrb : request_bytes [⟨some "big.bin".data, "u2".data,
        [List.replicate (MAX_UPLOAD_SIZE + 1) 0], StreamEnd.eof, true⟩]
        = MAX_UPLOAD_SIZE + 1 := by
      simp [request_bytes, proc_fields, List.filter_cons, hp, field_bytes]
    exact ((c3_upload_size_ceiling
      [⟨some "big.bin".data, "u2".data,
        [List.replicate (MAX_UPLOAD_SIZE + 1) 0], StreamEnd.eof, true⟩]
      (by intro f hf; simp at hf; subst hf; rfl)).2 (by rw [hrb]; omega)).1

theorem process_fields_index_irrel (fields : List MultipartField) (st st2 : UploadState)
    (h1 : st.disk = st2.disk) (h2 : st.total = st2.total)
    (h3 : st.uploaded = st2.uploaded) :
    (process_fields st (fields.map (set_index_ok true))).1.disk
      = (process_fields st2 fields).1.disk ∧
    (process_fields st (fields.map (set_index_ok true))).1.uploaded
      = (process_fields st2 fields).1.uploaded ∧
    (process_fields st (fields.map (set_index_ok true))).2
      = (process_fields st2 fields).2 := by
  induction fields generalizing st st2 with
  | nil => simp [process_fields, h1, h3]
  | cons f rest ih =>
    obtain ⟨cn, uuid, chunks, ending, iok⟩ := f
    simp only [List.map_cons, set_index_ok]
    rcases cn with _ | orig
    · simp only [process_fields]
      exact ih st st2 h1 h2 h3
    · simp only [process_fields]
      by_cases hrej : upload_name_rejected (sanitize_file_name orig) = true
      · rw [if_pos hrej, if_pos hrej]
        exact ih st st2 h1 h2 h3
      · rw [if_neg hrej, if_neg hrej, h2]
        rcases hwc : write_chunks st2.total chunks [] with _ | ⟨content, total2⟩
        · exact ⟨h1, h3, rfl⟩
        · cases ending with
          | failed => exact ⟨h1, h3, rfl⟩
          | eof =>
            exact ih _ _ (by simp [h1]) (by simp) (by simp [h3])

/-- C7 (amended): for every request within the size ceiling whose streams end
cleanly, the graph-side indexing outcome of each uploaded item influences
neither the physical files directory nor the response: a run in which any
subset of the SPARQL inserts fails leaves exactly the same disk contents and
returns exactly the same per-file success summary as a run in which they all
succeed — the physical write is not rolled back and the request does not
fail; the failure is recorded server-side only (in the log, modelled by the
`indexed` component, which pairs every stored file with its indexing
outcome). -/
theorem c7_indexing_failure_not_rolled_back (fields : List MultipartField)
    (heof : ∀ f ∈ fields, f.ending = StreamEnd.eof)
    (hsize : request_bytes fields ≤ MAX_UPLOAD_SIZE) :
    (run_upload (fields.map (set_index_ok true))).1.disk
      = (run_upload fields).1.disk ∧
    (run_upload (fields.map (set_index_ok true))).2 = (run_upload fields).2 ∧
    (run_upload fields).1.indexed
      = (proc_fields fields).map (fun f => (field_stored_name f, f.index_ok)) ∧
    (run_upload fields).1.disk = (proc_fields fields).map full_entry := by
  have hirr := process_fields_index_irrel fields ⟨[], 0, [], []⟩ ⟨[], 0, [], []⟩
    rfl rfl rfl
  have hok := process_fields_ok fields ⟨[], 0, [], []⟩ heof (by simpa using hsize)
  refine ⟨hirr.1, hirr.2.2, ?_, ?_⟩
  · unfold run_upload
    rw [hok]
    simp
  · unfold run_upload
    rw [hok]
    simp

/-- C7 counterexample: for an uploaded item whose physical write completed
but whose SPARQL indexing failed, the physical file stays on disk and the
request succeeds — but the response is LITERALLY the same success summary as
when indexing succeeds, so no partial-success condition is surfaced to the
client; the failure is only visible server-side. -/
theorem c7_counterexample :
    (run_upload [⟨some "a.txt".data, "u".data, [[1, 2]], StreamEnd.eof, false⟩]).2
      = UploadResponse.success ["a.txt".data] ∧
    (run_upload [⟨some "a.txt".data, "u".data, [[1, 2]], StreamEnd.eof, true⟩]).2
      = UploadResponse.success ["a.txt".data] ∧
    (run_upload [⟨some "a.txt".data, "u".data, [[1, 2]], StreamEnd.eof, false⟩]).1.disk
      = [("u.txt".data, [1, 2])] ∧
    (run_upload [⟨some "a.txt".data, "u".data, [[1, 2]], StreamEnd.eof, false⟩]).1.indexed
      = [("u.txt".data, false)] := by
  refine ⟨by decide, by decide, by decide, by decide⟩

/-- C7 witness: the amended theorem applied to a single-item request whose
indexing fails. -/
theorem c7_indexing_failure_witness :
    (run_upload [⟨some "report.pdf".data, "u1".data, [[9, 9, 9]], StreamEnd.eof, false⟩]).1.disk
      = [("u1.pdf".data, [9, 9, 9])] ∧
    (run_upload [⟨some "report.pdf".data, "u1".data, [[9, 9, 9]], StreamEnd.eof, false⟩]).1.indexed
      = [("u1.pdf".data, false)] := by
  have h := c7_indexing_failure_not_rolled_back
    [⟨some "report.pdf".data, "u1".data, [[9, 9, 9]], StreamEnd.eof, false⟩]
    (by intro f hf; simp at hf; subst hf; rfl) (by decide)
  exact ⟨h.2.2.2.trans (by decide), h.2.2.1.trans (by decide)⟩
